import Mathlib

/-!
Verification of the tracking-and-kinematics engine of the MCA AI project.

The engine consists of two parts:

* `src/utils/speedCalculation.ts`: the pure functions `calculateSpeed` and
  `determineAction` over a list of position samples;
* `src/components/Camera.tsx`: the per-cycle tracking update performed inside
  `startDetection` (association of detections with previous tracks, history
  append with eviction, speed/action recomputation, stale-track filter).

JavaScript numbers that can be `NaN` or `undefined` (bounding-box fields and
the centre coordinates derived from them) are modelled as `Option ℚ`, with
`none` playing the role of `NaN`/`undefined`: arithmetic propagates `none`
and every comparison against `none` is false, exactly as `NaN` comparisons
are false in JavaScript.  Timestamps come from `Date.now()` and are plain
rationals.  `Math.sqrt` forces the speed computation into `ℝ`
(`Real.sqrt`), hence those definitions are `noncomputable`; `Math.round`
is Mathlib's `round` (both are `⌊x + 1/2⌋`).
-/

namespace MCA

/-- A JavaScript number that may be `NaN`/`undefined` (`none`). -/
abbrev OQ := Option ℚ

/-- JS addition: `NaN` propagates. -/
def jadd : OQ → OQ → OQ
  | some a, some b => some (a + b)
  | _, _ => none

/-- JS subtraction: `NaN` propagates. -/
def jsub : OQ → OQ → OQ
  | some a, some b => some (a - b)
  | _, _ => none

/-- JS division by two (`width / 2`): `NaN` propagates. -/
def jhalf : OQ → OQ
  | some a => some (a / 2)
  | none => none

/-- JS `Math.abs`: `NaN` propagates. -/
def jabs : OQ → OQ
  | some a => some |a|
  | none => none

/-- JS comparison `a < b` with a plain number on the right:
false when `a` is `NaN`. -/
def jltB (a : OQ) (b : ℚ) : Bool :=
  match a with
  | some x => decide (x < b)
  | none => false

/-- JS comparison `a > b` between two possibly-`NaN` numbers:
false when either is `NaN`. -/
def jgtB (a b : OQ) : Bool :=
  match a, b with
  | some x, some y => decide (y < x)
  | _, _ => false

/-- Source `interface Position` of `speedCalculation.ts`: a centre-point sample.
`x`/`y` are derived from bounding-box fields and can be `NaN`;
`timestamp` comes from `Date.now()` and is always a plain number. -/
structure Position where
  x : OQ
  y : OQ
  timestamp : ℚ
  deriving DecidableEq, Repr

/-- Source `const PIXEL_TO_METER = 0.015`. -/
def PIXEL_TO_METER : ℝ := 0.015

/-- Source `const MS_TO_KMH = 3.6`. -/
def MS_TO_KMH : ℝ := 3.6

/-- Source `const MIN_MOVEMENT_THRESHOLD = 2`. -/
def MIN_MOVEMENT_THRESHOLD : ℚ := 2

/-- Source `const MAX_SPEED_THRESHOLD = 30`. -/
def MAX_SPEED_THRESHOLD : ℝ := 30

/-- Source `const SPEED_SMOOTHING_WINDOW = 3`. -/
def SPEED_SMOOTHING_WINDOW : ℕ := 3

/-- Source `const timeDiff = (curr.timestamp - prev.timestamp) / 1000`. -/
def timeDiff (prev curr : Position) : ℚ :=
  (curr.timestamp - prev.timestamp) / 1000

/-- Source `Math.sqrt(dx*dx + dy*dy)`: the Euclidean pixel distance of a
consecutive pair, `none` when a coordinate is `NaN` (the JS value would be
`NaN`, which fails every later comparison). -/
noncomputable def distOpt (prev curr : Position) : Option ℝ :=
  match prev.x, prev.y, curr.x, curr.y with
  | some px, some py, some cx, some cy =>
      some (Real.sqrt (((cx - px : ℚ) : ℝ) ^ 2 + ((cy - py : ℚ) : ℝ) ^ 2))
  | _, _, _, _ => none

/-- Source `const speed = (distance * PIXEL_TO_METER / timeDiff) * MS_TO_KMH`. -/
noncomputable def speedVal (distance : ℝ) (t : ℚ) : ℝ :=
  distance * PIXEL_TO_METER / (t : ℝ) * MS_TO_KMH

open Classical in
/-- The contribution of one consecutive pair to the `speeds` array of
`calculateSpeed`: the loop body
`if (distance > MIN_MOVEMENT_THRESHOLD && timeDiff > 0) { ... if (speed < MAX_SPEED_THRESHOLD) speeds.push(speed) }`.
A `NaN` distance fails `distance > MIN_MOVEMENT_THRESHOLD`. -/
noncomputable def pairSpeeds (prev curr : Position) : List ℝ :=
  match distOpt prev curr with
  | none => []
  | some distance =>
      if (MIN_MOVEMENT_THRESHOLD : ℝ) < distance ∧ 0 < timeDiff prev curr then
        if speedVal distance (timeDiff prev curr) < MAX_SPEED_THRESHOLD then
          [speedVal distance (timeDiff prev curr)]
        else []
      else []

/-- The `speeds` array built by the `for` loop of `calculateSpeed` over all
consecutive pairs of the history. -/
noncomputable def speedsList : List Position → List ℝ
  | prev :: curr :: rest => pairSpeeds prev curr ++ speedsList (curr :: rest)
  | _ => []

open Classical in
/-- Source `export const calculateSpeed = (positions) => ...` of
`speedCalculation.ts`: smoothed speed in km/h, rounded to an integer. -/
noncomputable def calculateSpeed (positions : List Position) : ℤ :=
  if positions.length < 2 then 0
  else
    let speeds := speedsList positions
    if speeds.length = 0 then 0
    else
      let recentSpeeds := speeds.drop (speeds.length - SPEED_SMOOTHING_WINDOW)
      let averageSpeed := recentSpeeds.foldl (· + ·) 0 / (recentSpeeds.length : ℝ)
      round averageSpeed

/-- The `verticalMovement` accumulator of `determineAction`:
`verticalMovement += Math.abs(curr.y - prev.y)` over consecutive pairs.
A `NaN` delta poisons the whole sum, as in JS. -/
def vertSum : List Position → OQ
  | prev :: curr :: rest => jadd (jabs (jsub curr.y prev.y)) (vertSum (curr :: rest))
  | _ => some 0

/-- The `horizontalMovement` accumulator of `determineAction`. -/
def horizSum : List Position → OQ
  | prev :: curr :: rest => jadd (jabs (jsub curr.x prev.x)) (horizSum (curr :: rest))
  | _ => some 0

/-- Source `export const determineAction = (positions, speed) => ...` of
`speedCalculation.ts`.  `positions.slice(-3)` is `drop (length - 3)`;
the comparisons involving the movement sums are false on `NaN`. -/
def determineAction (positions : List Position) (speed : ℚ) : String :=
  if positions.length < 2 then "stationary"
  else
    let recentPositions := positions.drop (positions.length - 3)
    let verticalMovement := vertSum recentPositions
    let horizontalMovement := horizSum recentPositions
    if speed < 1 then
      if jltB verticalMovement (MIN_MOVEMENT_THRESHOLD * 2) then "sitting"
      else "standing"
    else if speed < 3 then
      if jgtB verticalMovement horizontalMovement then "standing"
      else "walking slowly"
    else if speed < 8 then "walking"
    else if speed < 15 then "walking fast"
    else "running"

/-! ### Spec-side definitions for the kinematics estimator

These re-state the spec's wording over plain rational values, to be compared
with the source-derived definitions above. -/

/-- The `x` value of a sample known to be well-formed (`NaN`-free). -/
def qx (p : Position) : ℚ := p.x.getD 0

/-- The `y` value of a sample known to be well-formed (`NaN`-free). -/
def qy (p : Position) : ℚ := p.y.getD 0

/-- A sample with both coordinates plain numbers (no `NaN`). -/
def Defined (p : Position) : Prop := p.x.isSome ∧ p.y.isSome

/-- Spec wording: "sum of absolute vertical deltas". -/
def sumAbsY : List Position → ℚ
  | prev :: curr :: rest => |qy curr - qy prev| + sumAbsY (curr :: rest)
  | _ => 0

/-- Spec wording: "sum of absolute horizontal deltas". -/
def sumAbsX : List Position → ℚ
  | prev :: curr :: rest => |qx curr - qx prev| + sumAbsX (curr :: rest)
  | _ => 0

/-- The ordered decision table of the spec for the action label, over the
movement sums of the last 3 positions. -/
def actionTable (positions : List Position) (speed : ℚ) : String :=
  if positions.length < 2 then "stationary"
  else
    let recent := positions.drop (positions.length - 3)
    let verticalMovement := sumAbsY recent
    let horizontalMovement := sumAbsX recent
    if speed < 1 then
      if verticalMovement < 4 then "sitting" else "standing"
    else if speed < 3 then
      if verticalMovement > horizontalMovement then "standing" else "walking slowly"
    else if speed < 8 then "walking"
    else if speed < 15 then "walking fast"
    else "running"

/-- History with two samples whose vertical movement sum is 2px. -/
def histV2 : List Position := [⟨some 0, some 0, 0⟩, ⟨some 0, some 2, 1000⟩]

/-- History with two samples whose vertical movement sum is 10px. -/
def histV10 : List Position := [⟨some 0, some 0, 0⟩, ⟨some 0, some 10, 1000⟩]

lemma vertSum_of_defined :
    ∀ ps : List Position, (∀ p ∈ ps, Defined p) → vertSum ps = some (sumAbsY ps) := by
  intro ps
  induction ps with
  | nil => intro _; rfl
  | cons a t ih =>
    cases t with
    | nil => intro _; rfl
    | cons b r =>
      intro h
      have hb : Defined b := h b (by simp)
      have ha : Defined a := h a (by simp)
      have ht : vertSum (b :: r) = some (sumAbsY (b :: r)) := by
        refine ih ?_
        intro p hp
        exact h p (List.mem_cons_of_mem _ hp)
      obtain ⟨ax, ay⟩ := ha
      obtain ⟨bx, by'⟩ := hb
      obtain ⟨av, hav⟩ := Option.isSome_iff_exists.1 ay
      obtain ⟨bv, hbv⟩ := Option.isSome_iff_exists.1 by'
      simp [vertSum, sumAbsY, ht, hav, hbv, jadd, jabs, jsub, qy]

lemma horizSum_of_defined :
    ∀ ps : List Position, (∀ p ∈ ps, Defined p) → horizSum ps = some (sumAbsX ps) := by
  intro ps
  induction ps with
  | nil => intro _; rfl
  | cons a t ih =>
    cases t with
    | nil => intro _; rfl
    | cons b r =>
      intro h
      have hb : Defined b := h b (by simp)
      have ha : Defined a := h a (by simp)
      have ht : horizSum (b :: r) = some (sumAbsX (b :: r)) := by
        refine ih ?_
        intro p hp
        exact h p (List.mem_cons_of_mem _ hp)
      obtain ⟨ax, ay⟩ := ha
      obtain ⟨bx, by'⟩ := hb
      obtain ⟨av, hav⟩ := Option.isSome_iff_exists.1 ax
      obtain ⟨bv, hbv⟩ := Option.isSome_iff_exists.1 bx
      simp [horizSum, sumAbsX, ht, hav, hbv, jadd, jabs, jsub, qx]

/-- C1: over `NaN`-free histories, `determineAction` is exactly the ordered
decision table of the spec over speed and the movement sums of the last 3
positions: fewer than 2 positions gives `stationary`; else `speed < 1` with
vertical movement `< 4` gives `sitting`; `speed < 1` otherwise `standing`;
`speed < 3` with vertical `>` horizontal gives `standing`; `speed < 3`
otherwise `walking slowly`; `speed < 8` `walking`; `speed < 15`
`walking fast`; otherwise `running`.  In particular, speed 0.5 with 2px of
vertical movement gives `sitting`, speed 0.5 with 10px gives `standing`,
speed 10 gives `walking fast` and speed 20 gives `running`. -/
theorem determineAction_matches_spec_table :
    (∀ (ps : List Position) (speed : ℚ), (∀ p ∈ ps, Defined p) →
      determineAction ps speed = actionTable ps speed)
    ∧ determineAction histV2 (1/2) = "sitting"
    ∧ determineAction histV10 (1/2) = "standing"
    ∧ determineAction histV2 10 = "walking fast"
    ∧ determineAction histV2 20 = "running" := by
  refine ⟨?_, ?_, ?_, ?_, ?_⟩
  · intro ps speed h
    by_cases hl : ps.length < 2
    · simp [determineAction, actionTable, hl]
    · have hdrop : ∀ p ∈ ps.drop (ps.length - 3), Defined p := by
        intro p hp
        exact h p (List.mem_of_mem_drop hp)
      have hv := vertSum_of_defined _ hdrop
      have hh := horizSum_of_defined _ hdrop
      norm_num [determineAction, actionTable, hl, hv, hh, jltB, jgtB,
        MIN_MOVEMENT_THRESHOLD]
  · norm_num [determineAction, histV2, vertSum, horizSum, jadd, jabs, jsub,
      jltB, jgtB, MIN_MOVEMENT_THRESHOLD]
  · norm_num [determineAction, histV10, vertSum, horizSum, jadd, jabs, jsub,
      jltB, jgtB, MIN_MOVEMENT_THRESHOLD]
  · norm_num [determineAction, histV2, vertSum, horizSum, jadd, jabs, jsub,
      jltB, jgtB, MIN_MOVEMENT_THRESHOLD]
  · norm_num [determineAction, histV2, vertSum, horizSum, jadd, jabs, jsub,
      jltB, jgtB, MIN_MOVEMENT_THRESHOLD]

/-- Witness for C1: the general table equation applied to the concrete
two-sample history `histV2` at speed 0.5, with the `NaN`-freeness
hypothesis discharged by evaluation. -/
theorem determineAction_matches_spec_table_witness :
    determineAction histV2 (1/2) = actionTable histV2 (1/2) :=
  determineAction_matches_spec_table.1 histV2 (1/2)
    (by intro p hp; fin_cases hp <;> simp [Defined])

/-! ### Spec-side definitions for the speed estimator -/

/-- Spec wording: "Euclidean pixel distance" of a consecutive pair, over the
plain values of a `NaN`-free pair. -/
noncomputable def pixelDist (prev curr : Position) : ℝ :=
  Real.sqrt (((qx curr - qx prev : ℚ) : ℝ) ^ 2 + ((qy curr - qy prev : ℚ) : ℝ) ^ 2)

/-- Spec wording: "Instantaneous speed (km/h) =
`distance * PIXEL_TO_METER / elapsedSeconds * 3.6`". -/
noncomputable def specInstSpeed (prev curr : Position) : ℝ :=
  pixelDist prev curr * PIXEL_TO_METER / ((timeDiff prev curr : ℚ) : ℝ) * MS_TO_KMH

/-- A consecutive pair that survives the filtering of `calculateSpeed`:
its distance exists (no `NaN`) and exceeds 2px, its elapsed time is
positive, and its instantaneous speed is below 30 km/h. -/
noncomputable def Survives (prev curr : Position) : Prop :=
  ∃ d, distOpt prev curr = some d ∧ (MIN_MOVEMENT_THRESHOLD : ℝ) < d ∧
    0 < timeDiff prev curr ∧ speedVal d (timeDiff prev curr) < MAX_SPEED_THRESHOLD

/-- The instantaneous speeds of all consecutive pairs, per the spec
(before any filtering). -/
noncomputable def specInstSpeeds : List Position → List ℝ
  | prev :: curr :: rest => specInstSpeed prev curr :: specInstSpeeds (curr :: rest)
  | _ => []

/-- Spec wording: "take the last `SPEED_SMOOTHING_WINDOW` (3) surviving
instantaneous speeds (or fewer) and average them", rounded to an integer. -/
noncomputable def specSmoothedSpeed (ps : List Position) : ℤ :=
  let l := specInstSpeeds ps
  let r := l.drop (l.length - SPEED_SMOOTHING_WINDOW)
  round (r.sum / (r.length : ℝ))

lemma distOpt_eq_pixelDist {prev curr : Position} {d : ℝ}
    (h : distOpt prev curr = some d) : d = pixelDist prev curr := by
  unfold distOpt at h
  rcases hpx : prev.x with _ | px <;> rcases hpy : prev.y with _ | py <;>
    rcases hcx : curr.x with _ | cx <;> rcases hcy : curr.y with _ | cy <;>
    simp [hpx, hpy, hcx, hcy] at h
  simp [pixelDist, qx, qy, hpx, hpy, hcx, hcy, ← h]

lemma pairSpeeds_of_survives {prev curr : Position} (h : Survives prev curr) :
    pairSpeeds prev curr = [specInstSpeed prev curr] := by
  obtain ⟨d, hd, h2, ht, h30⟩ := h
  have hdp : d = pixelDist prev curr := distOpt_eq_pixelDist hd
  simp only [pairSpeeds, hd]
  rw [if_pos ⟨h2, ht⟩, if_pos h30]
  simp [speedVal, specInstSpeed, hdp]

lemma speedsList_of_chain :
    ∀ ps : List Position, List.Chain' Survives ps → speedsList ps = specInstSpeeds ps := by
  intro ps
  induction ps with
  | nil => intro _; rfl
  | cons a t ih =>
    cases t with
    | nil => intro _; rfl
    | cons b r =>
      intro h
      rw [List.chain'_cons] at h
      simp [speedsList, specInstSpeeds, pairSpeeds_of_survives h.1, ih h.2]

lemma specInstSpeeds_length :
    ∀ ps : List Position, (specInstSpeeds ps).length = ps.length - 1 := by
  intro ps
  induction ps with
  | nil => rfl
  | cons a t ih =>
    cases t with
    | nil => rfl
    | cons b r => simp [specInstSpeeds, ih]

lemma foldl_add_eq_sum (l : List ℝ) : ∀ a : ℝ, l.foldl (· + ·) a = a + l.sum := by
  induction l with
  | nil => intro a; simp
  | cons x t ih => intro a; simp [ih, add_assoc]

/-- C2: on a history all of whose consecutive pairs survive the filters,
`calculateSpeed` is the rounded average of the last at most 3 instantaneous
speeds `distance * 0.015 / elapsedSeconds * 3.6`. -/
theorem calculateSpeed_matches_spec_average :
    ∀ ps : List Position, 2 ≤ ps.length → List.Chain' Survives ps →
      calculateSpeed ps = specSmoothedSpeed ps := by
  intro ps h2 hch
  have hs : speedsList ps = specInstSpeeds ps := speedsList_of_chain ps hch
  have hlen : (specInstSpeeds ps).length = ps.length - 1 := specInstSpeeds_length ps
  have hne : ¬ (specInstSpeeds ps).length = 0 := by omega
  unfold calculateSpeed specSmoothedSpeed
  rw [if_neg (by omega), hs, if_neg hne]
  simp only [foldl_add_eq_sum, zero_add]

/-- Two samples 100px apart horizontally and 1000ms apart. -/
def histH100 : List Position := [⟨some 0, some 0, 0⟩, ⟨some 100, some 0, 1000⟩]

lemma survives_histH100 :
    Survives ⟨some 0, some 0, 0⟩ ⟨some 100, some 0, 1000⟩ := by
  refine ⟨100, ?_, by norm_num [MIN_MOVEMENT_THRESHOLD], ?_, ?_⟩
  · simp only [distOpt]
    norm_num
    rw [show (10000:ℝ) = 100^2 by norm_num]
    rw [Real.sqrt_sq (by norm_num : (0:ℝ) ≤ 100)]
  · norm_num [timeDiff]
  · norm_num [speedVal, timeDiff, PIXEL_TO_METER, MS_TO_KMH, MAX_SPEED_THRESHOLD]

/-- Witness for C2: the concrete two-sample history 100px/1000ms satisfies
the all-pairs-survive hypothesis, and the resulting speed is
`round(100 * 0.015 / 1 * 3.6) = round(5.4) = 5` km/h. -/
theorem calculateSpeed_matches_spec_average_witness :
    2 ≤ histH100.length ∧ List.Chain' Survives histH100 ∧
      calculateSpeed histH100 = 5 := by
  have hch : List.Chain' Survives histH100 := by
    simp only [histH100, List.chain'_cons]
    exact ⟨survives_histH100, List.chain'_singleton _⟩
  refine ⟨by norm_num [histH100], hch, ?_⟩
  rw [calculateSpeed_matches_spec_average histH100 (by norm_num [histH100]) hch]
  have hd : pixelDist ⟨some 0, some 0, 0⟩ ⟨some 100, some 0, 1000⟩ = 100 := by
    simp only [pixelDist, qx, qy]
    norm_num
    rw [show (10000:ℝ) = 100^2 by norm_num]
    rw [Real.sqrt_sq (by norm_num : (0:ℝ) ≤ 100)]
  have hspeed : specInstSpeed ⟨some 0, some 0, 0⟩ ⟨some 100, some 0, 1000⟩ = 5.4 := by
    rw [specInstSpeed, hd]
    norm_num [timeDiff, PIXEL_TO_METER, MS_TO_KMH]
  simp only [specSmoothedSpeed, histH100, specInstSpeeds, hspeed]
  norm_num [SPEED_SMOOTHING_WINDOW, round_eq]

/-- C3: `calculateSpeed` is total and each of its filters is effective:
fewer than 2 samples gives 0; the `speeds` array is the concatenation of the
per-pair contributions; a pair with a `NaN` distance, with distance
`≤ MIN_MOVEMENT_THRESHOLD` (2px), with elapsed time `≤ 0`, or with
instantaneous speed `≥ MAX_SPEED_THRESHOLD` (30 km/h) contributes nothing;
and when no pair survives the result is 0. -/
theorem calculateSpeed_total_and_filters :
    (∀ ps : List Position, ps.length < 2 → calculateSpeed ps = 0)
    ∧ (∀ (prev curr : Position) (rest : List Position),
        speedsList (prev :: curr :: rest) = pairSpeeds prev curr ++ speedsList (curr :: rest))
    ∧ (∀ prev curr : Position, distOpt prev curr = none → pairSpeeds prev curr = [])
    ∧ (∀ (prev curr : Position) (d : ℝ), distOpt prev curr = some d →
        d ≤ (MIN_MOVEMENT_THRESHOLD : ℝ) → pairSpeeds prev curr = [])
    ∧ (∀ prev curr : Position, timeDiff prev curr ≤ 0 → pairSpeeds prev curr = [])
    ∧ (∀ (prev curr : Position) (d : ℝ), distOpt prev curr = some d →
        MAX_SPEED_THRESHOLD ≤ speedVal d (timeDiff prev curr) → pairSpeeds prev curr = [])
    ∧ (∀ ps : List Position, speedsList ps = [] → calculateSpeed ps = 0) := by
  refine ⟨?_, ?_, ?_, ?_, ?_, ?_, ?_⟩
  · intro ps h
    unfold calculateSpeed
    rw [if_pos h]
  · intro prev curr rest
    rfl
  · intro prev curr h
    simp only [pairSpeeds, h]
  · intro prev curr d hd hle
    simp only [pairSpeeds, hd]
    rw [if_neg]
    rintro ⟨h2, -⟩
    exact absurd hle (not_le.2 h2)
  · intro prev curr ht
    rcases hdo : distOpt prev curr with _ | d
    · simp only [pairSpeeds, hdo]
    · simp only [pairSpeeds, hdo]
      rw [if_neg]
      rintro ⟨-, hpos⟩
      exact absurd ht (not_le.2 hpos)
  · intro prev curr d hd hge
    simp only [pairSpeeds, hd]
    by_cases hc : (MIN_MOVEMENT_THRESHOLD : ℝ) < d ∧ 0 < timeDiff prev curr
    · rw [if_pos hc, if_neg (not_lt.2 hge)]
    · rw [if_neg hc]
  · intro ps h
    unfold calculateSpeed
    by_cases hl : ps.length < 2
    · rw [if_pos hl]
    · rw [if_neg hl]
      simp [h]

/-- A pair whose pixel distance is exactly 1: filtered as sensor noise. -/
def pairNoiseA : Position := ⟨some 0, some 0, 0⟩
/-- See `pairNoiseA`. -/
def pairNoiseB : Position := ⟨some 1, some 0, 1000⟩

/-- A pair with zero elapsed time (duplicate timestamps). -/
def pairDupA : Position := ⟨some 0, some 0, 1000⟩
/-- See `pairDupA`. -/
def pairDupB : Position := ⟨some 10, some 0, 1000⟩

/-- A pair 1000px apart in 100ms: instantaneous speed 540 km/h, an
outlier. -/
def pairFastA : Position := ⟨some 0, some 0, 0⟩
/-- See `pairFastA`. -/
def pairFastB : Position := ⟨some 1000, some 0, 100⟩

/-- A pair whose first sample has a `NaN` x-coordinate. -/
def pairNanA : Position := ⟨none, some 0, 0⟩
/-- See `pairNanA`. -/
def pairNanB : Position := ⟨some 50, some 0, 1000⟩

/-- A pair that moves 0px in 1000ms: its distance 0 is filtered, so no
speed sample survives at all. -/
def histStill : List Position := [⟨some 0, some 0, 0⟩, ⟨some 0, some 0, 1000⟩]

lemma distOpt_pairNoise : distOpt pairNoiseA pairNoiseB = some 1 := by
  simp only [distOpt, pairNoiseA, pairNoiseB]
  norm_num

lemma distOpt_pairFast : distOpt pairFastA pairFastB = some 1000 := by
  simp only [distOpt, pairFastA, pairFastB]
  norm_num
  rw [show (1000000:ℝ) = 1000^2 by norm_num]
  rw [Real.sqrt_sq (by norm_num : (0:ℝ) ≤ 1000)]

/-- Witness for C3: each filter fires on its concrete degenerate pair, and
the empty, the single-sample and the motionless histories all give speed
0. -/
theorem calculateSpeed_total_and_filters_witness :
    calculateSpeed [] = 0
    ∧ calculateSpeed [pairNoiseA] = 0
    ∧ pairSpeeds pairNoiseA pairNoiseB = []
    ∧ pairSpeeds pairDupA pairDupB = []
    ∧ pairSpeeds pairFastA pairFastB = []
    ∧ pairSpeeds pairNanA pairNanB = []
    ∧ calculateSpeed histStill = 0 := by
  refine ⟨?_, ?_, ?_, ?_, ?_, ?_, ?_⟩
  · exact calculateSpeed_total_and_filters.1 [] (by norm_num)
  · exact calculateSpeed_total_and_filters.1 [pairNoiseA] (by norm_num)
  · exact calculateSpeed_total_and_filters.2.2.2.1 pairNoiseA pairNoiseB 1
      distOpt_pairNoise (by norm_num [MIN_MOVEMENT_THRESHOLD])
  · exact calculateSpeed_total_and_filters.2.2.2.2.1 pairDupA pairDupB
      (by norm_num [timeDiff, pairDupA, pairDupB])
  · refine calculateSpeed_total_and_filters.2.2.2.2.2.1 pairFastA pairFastB 1000
      distOpt_pairFast ?_
    norm_num [speedVal, timeDiff, pairFastA, pairFastB, PIXEL_TO_METER,
      MS_TO_KMH, MAX_SPEED_THRESHOLD]
  · exact calculateSpeed_total_and_filters.2.2.1 pairNanA pairNanB
      (by simp [distOpt, pairNanA, pairNanB])
  · refine calculateSpeed_total_and_filters.2.2.2.2.2.2 histStill ?_
    simp only [histStill, speedsList, pairSpeeds, distOpt]
    norm_num [MIN_MOVEMENT_THRESHOLD]

/-- The `recentSpeeds` slice (`speeds.slice(-SPEED_SMOOTHING_WINDOW)`) of
`calculateSpeed`. -/
noncomputable def recentOf (ps : List Position) : List ℝ :=
  (speedsList ps).drop ((speedsList ps).length - SPEED_SMOOTHING_WINDOW)

lemma calculateSpeed_eq (ps : List Position) :
    calculateSpeed ps =
      if ps.length < 2 then 0
      else if (speedsList ps).length = 0 then 0
      else round ((recentOf ps).sum / ((recentOf ps).length : ℝ)) := by
  unfold calculateSpeed recentOf
  simp only [foldl_add_eq_sum, zero_add]

lemma mem_pairSpeeds {prev curr : Position} {s : ℝ} (h : s ∈ pairSpeeds prev curr) :
    0 < s ∧ s < MAX_SPEED_THRESHOLD := by
  rcases hdo : distOpt prev curr with _ | d
  · simp [pairSpeeds, hdo] at h
  · simp only [pairSpeeds, hdo] at h
    split_ifs at h with h1 h2
    · simp only [List.mem_singleton] at h
      subst h
      refine ⟨?_, h2⟩
      have hd : (0:ℝ) < d := lt_trans (by norm_num [MIN_MOVEMENT_THRESHOLD]) h1.1
      have ht : (0:ℝ) < ((timeDiff prev curr : ℚ) : ℝ) := by
        exact_mod_cast h1.2
      unfold speedVal
      have h015 : (0:ℝ) < PIXEL_TO_METER := by norm_num [PIXEL_TO_METER]
      have h36 : (0:ℝ) < MS_TO_KMH := by norm_num [MS_TO_KMH]
      exact mul_pos (div_pos (mul_pos hd h015) ht) h36
    · simp at h
    · simp at h

lemma mem_speedsList {s : ℝ} :
    ∀ ps : List Position, s ∈ speedsList ps → 0 < s ∧ s < MAX_SPEED_THRESHOLD := by
  intro ps
  induction ps with
  | nil => intro h; simp [speedsList] at h
  | cons a t ih =>
    cases t with
    | nil => intro h; simp [speedsList] at h
    | cons b r =>
      intro h
      rw [speedsList, List.mem_append] at h
      rcases h with h | h
      · exact mem_pairSpeeds h
      · exact ih h

lemma sum_lt_mul_length (c : ℝ) :
    ∀ l : List ℝ, l ≠ [] → (∀ s ∈ l, s < c) → l.sum < c * l.length := by
  intro l
  induction l with
  | nil => intro h; exact absurd rfl h
  | cons a t ih =>
    intro _ h
    cases t with
    | nil => simpa using h a (by simp)
    | cons b r =>
      have h1 : a < c := h a (by simp)
      have h2 : (b :: r).sum < c * (b :: r).length := by
        refine ih (by simp) ?_
        intro s hs
        exact h s (List.mem_cons_of_mem _ hs)
      have : (a :: b :: r).sum = a + (b :: r).sum := by simp
      rw [this]
      have hlen : ((a :: b :: r).length : ℝ) = (b :: r).length + 1 := by
        simp
      rw [hlen]
      nlinarith

/-- C10: `calculateSpeed` always returns an integer in `[0, 30]`: every
surviving instantaneous speed is strictly positive and strictly below the
30 km/h threshold, so the rounded average lies in the closed range even
though the code states the cutoff only as a per-pair filter. -/
theorem calculateSpeed_range :
    ∀ ps : List Position, 0 ≤ calculateSpeed ps ∧ calculateSpeed ps ≤ 30 := by
  intro ps
  rw [calculateSpeed_eq]
  split_ifs with h1 h2
  · norm_num
  · norm_num
  · have hmem : ∀ s ∈ recentOf ps, 0 < s ∧ s < MAX_SPEED_THRESHOLD := by
      intro s hs
      exact mem_speedsList ps (List.mem_of_mem_drop hs)
    have hlen : (recentOf ps).length =
        (speedsList ps).length - ((speedsList ps).length - 3) := by
      simp [recentOf, SPEED_SMOOTHING_WINDOW]
    have hpos : 0 < (recentOf ps).length := by omega
    have hlenR : (0:ℝ) < ((recentOf ps).length : ℝ) := by exact_mod_cast hpos
    have hsum0 : 0 ≤ (recentOf ps).sum :=
      List.sum_nonneg fun s hs => le_of_lt (hmem s hs).1
    have hsumlt : (recentOf ps).sum < 30 * (recentOf ps).length := by
      have := sum_lt_mul_length 30 (recentOf ps)
        (List.ne_nil_of_length_pos hpos)
        (fun s hs => by simpa [MAX_SPEED_THRESHOLD] using (hmem s hs).2)
      exact this
    have havg0 : 0 ≤ (recentOf ps).sum / ((recentOf ps).length : ℝ) :=
      div_nonneg hsum0 (le_of_lt hlenR)
    have havglt : (recentOf ps).sum / ((recentOf ps).length : ℝ) < 30 :=
      (div_lt_iff₀ hlenR).2 (by linarith)
    constructor
    · rw [round_eq]
      exact Int.floor_nonneg.2 (by linarith)
    · rw [round_eq]
      have : (recentOf ps).sum / ((recentOf ps).length : ℝ) + 1 / 2 < 31 := by
        linarith
      have hfl : ⌊(recentOf ps).sum / ((recentOf ps).length : ℝ) + 1 / 2⌋ < 31 := by
        refine Int.floor_lt.2 ?_
        push_cast
        linarith
      omega

/-! ### The tracking cycle of `Camera.tsx`

`startDetection` polls the detector and, per cycle, maps every prediction to
a tracked-object record (matching it against the previous cycle's track set)
and then filters out stale records.  `Math.random()` in the id template
literal is modelled as an oracle `ids : ℕ → String` giving the fresh id used
for the detection at each list index. -/

/-- Source `const POSITION_HISTORY = 15`. -/
def POSITION_HISTORY : ℕ := 15

/-- Source `const OBJECT_TIMEOUT = 1000`. -/
def OBJECT_TIMEOUT : ℚ := 1000

/-- Source `interface Detection` of `Camera.tsx`: `bbox` is a JS array of numbers
`[x, y, width, height]`; a malformed detection has missing (short array)
or `NaN` entries. -/
structure Detection where
  bbox : List OQ
  className : String
  score : ℚ
  deriving DecidableEq, Repr

/-- Source `interface TrackedObject` of `Camera.tsx`. -/
structure TrackedObject where
  id : String
  className : String
  positions : List Position
  speed : ℤ
  bbox : List OQ
  score : ℚ
  action : String
  lastUpdate : ℚ
  deriving DecidableEq

/-- JS array destructuring/index access `b[i]`: `undefined` (modelled as
`none`, like `NaN`) when the index is out of range. -/
def jget (b : List OQ) (i : ℕ) : OQ := (b[i]?).getD none

/-- The expression `x + width / 2` from the bounding box (the code computes the same
expression both for the detection and for the candidate track). -/
def bbCenterX (b : List OQ) : OQ := jadd (jget b 0) (jhalf (jget b 2))

/-- The expression `y + height / 2` from the bounding box. -/
def bbCenterY (b : List OQ) : OQ := jadd (jget b 1) (jhalf (jget b 3))

/-- The association gate of `startDetection`:
`obj.class === pred.class && Math.abs(obj.bbox[0] + obj.bbox[2]/2 - centerX) < 50 && Math.abs(obj.bbox[1] + obj.bbox[3]/2 - centerY) < 50`.
Comparisons against `NaN` are false. -/
def gateMatch (obj : TrackedObject) (pred : Detection) : Bool :=
  obj.className == pred.className
    && jltB (jabs (jsub (bbCenterX obj.bbox) (bbCenterX pred.bbox))) 50
    && jltB (jabs (jsub (bbCenterY obj.bbox) (bbCenterY pred.bbox))) 50

/-- Source `prevObjects.find(obj => ...)`: the first previous track passing the
gate. -/
def findExisting (prev : List TrackedObject) (pred : Detection) : Option TrackedObject :=
  prev.find? (fun obj => gateMatch obj pred)

/-- Source `positions.push(...)` followed by
`if (positions.length > POSITION_HISTORY) positions.shift()`. -/
def pushHist (h : List Position) (p : Position) : List Position :=
  let h1 := h ++ [p]
  if h1.length > POSITION_HISTORY then h1.tail else h1

/-- The body of `predictions.map(...)`: build the record emitted for one
detection.  `existingObject?.id || fresh` falls through to the fresh id
when there is no match (or when, vacuously, the existing id is the falsy
`""`). -/
noncomputable def processDet (prev : List TrackedObject) (now : ℚ)
    (pred : Detection) (freshId : String) : TrackedObject :=
  let existing := findExisting prev pred
  let positions := pushHist
    (match existing with
     | some o => o.positions
     | none => [])
    ⟨bbCenterX pred.bbox, bbCenterY pred.bbox, now⟩
  { id := match existing with
      | some o => if o.id = "" then freshId else o.id
      | none => freshId
    className := pred.className
    positions := positions
    speed := calculateSpeed positions
    bbox := pred.bbox
    score := pred.score
    action := determineAction positions ((calculateSpeed positions : ℤ) : ℚ)
    lastUpdate := now }

/-- Source `predictions.map(...)` with the fresh-id oracle indexed by list
position. -/
noncomputable def processList (prev : List TrackedObject) (now : ℚ)
    (ids : ℕ → String) : ℕ → List Detection → List TrackedObject
  | _, [] => []
  | i, pred :: rest =>
      processDet prev now pred (ids i) :: processList prev now ids (i + 1) rest

/-- One full detection cycle of `startDetection`: map every prediction to a
record, then `filter(obj => currentTime - obj.lastUpdate < OBJECT_TIMEOUT)`. -/
noncomputable def runCycle (prev : List TrackedObject) (dets : List Detection)
    (now : ℚ) (ids : ℕ → String) : List TrackedObject :=
  (processList prev now ids 0 dets).filter
    (fun obj => decide (now - obj.lastUpdate < OBJECT_TIMEOUT))

/-- Iterating cycles: `runCycles ids k st stream` returns the per-cycle
outputs starting from track set `st`, using `ids k` as cycle `k`'s
fresh-id oracle; each cycle's output becomes the next cycle's previous
set (the functional `setTrackedObjects` update). -/
noncomputable def runCycles (ids : ℕ → ℕ → String) :
    ℕ → List TrackedObject → List (List Detection × ℚ) → List (List TrackedObject)
  | _, _, [] => []
  | k, st, (dets, now) :: rest =>
      runCycle st dets now (ids k) :: runCycles ids (k + 1) (runCycle st dets now (ids k)) rest

/-- The engine's runs all start from the empty track set
(`useState<TrackedObject[]>([])`). -/
noncomputable def runAll (stream : List (List Detection × ℚ)) (ids : ℕ → ℕ → String) :
    List (List TrackedObject) :=
  runCycles ids 0 [] stream

lemma lastUpdate_processList {prev : List TrackedObject} {now : ℚ} {ids : ℕ → String} :
    ∀ (dets : List Detection) (i : ℕ) (obj : TrackedObject),
      obj ∈ processList prev now ids i dets → obj.lastUpdate = now := by
  intro dets
  induction dets with
  | nil => intro i obj h; simp [processList] at h
  | cons d rest ih =>
    intro i obj h
    rw [processList, List.mem_cons] at h
    rcases h with h | h
    · subst h; rfl
    · exact ih (i + 1) obj h

/-- Every emitted record carries `lastUpdate = currentTime`, so the stale
filter (`currentTime - obj.lastUpdate < OBJECT_TIMEOUT`) keeps all of
them. -/
lemma runCycle_eq_processList (prev : List TrackedObject) (dets : List Detection)
    (now : ℚ) (ids : ℕ → String) :
    runCycle prev dets now ids = processList prev now ids 0 dets := by
  unfold runCycle
  rw [List.filter_eq_self]
  intro obj hmem
  have h := lastUpdate_processList dets 0 obj hmem
  rw [h]
  simp [OBJECT_TIMEOUT]

lemma pushHist_length_le {h : List Position} (p : Position)
    (hle : h.length ≤ POSITION_HISTORY) : (pushHist h p).length ≤ POSITION_HISTORY := by
  simp only [pushHist]
  split_ifs with hgt
  · simp only [List.length_tail, List.length_append, List.length_singleton]
    omega
  · simp only [List.length_append, List.length_singleton] at hgt ⊢
    omega

lemma positions_length_processList {prev : List TrackedObject} {now : ℚ}
    {ids : ℕ → String} (hprev : ∀ o ∈ prev, o.positions.length ≤ POSITION_HISTORY) :
    ∀ (dets : List Detection) (i : ℕ) (obj : TrackedObject),
      obj ∈ processList prev now ids i dets →
        obj.positions.length ≤ POSITION_HISTORY := by
  intro dets
  induction dets with
  | nil => intro i obj h; simp [processList] at h
  | cons d rest ih =>
    intro i obj h
    rw [processList, List.mem_cons] at h
    rcases h with h | h
    · subst h
      show (pushHist _ _).length ≤ POSITION_HISTORY
      refine pushHist_length_le _ ?_
      rcases hf : findExisting prev d with _ | o
      · simp [hf]
      · simp only [hf]
        exact hprev o (List.mem_of_find?_eq_some hf)
    · exact ih (i + 1) obj h

lemma positions_length_runCycles {ids : ℕ → ℕ → String} :
    ∀ (stream : List (List Detection × ℚ)) (k : ℕ) (st : List TrackedObject),
      (∀ o ∈ st, o.positions.length ≤ POSITION_HISTORY) →
      ∀ out ∈ runCycles ids k st stream, ∀ obj ∈ out,
        obj.positions.length ≤ POSITION_HISTORY := by
  intro stream
  induction stream with
  | nil => intro k st _ out h; simp [runCycles] at h
  | cons c rest ih =>
    intro k st hst out hout obj hobj
    obtain ⟨dets, now⟩ := c
    rw [runCycles, List.mem_cons] at hout
    have hcycle : ∀ x ∈ runCycle st dets now (ids k),
        x.positions.length ≤ POSITION_HISTORY := by
      intro x hx
      rw [runCycle_eq_processList] at hx
      exact positions_length_processList hst dets 0 x hx
    rcases hout with hout | hout
    · subst hout
      exact hcycle obj hobj
    · exact ih (k + 1) (runCycle st dets now (ids k)) hcycle out hout obj hobj

/-- C4: after any number of detection cycles from the fresh engine, every
track's position history has length at most `POSITION_HISTORY` (15); and
appending a sample to a full history evicts exactly the oldest entry,
keeping the remaining samples in order (FIFO). -/
theorem history_bounded_and_fifo :
    (∀ (stream : List (List Detection × ℚ)) (ids : ℕ → ℕ → String),
      ∀ out ∈ runAll stream ids, ∀ obj ∈ out,
        obj.positions.length ≤ POSITION_HISTORY)
    ∧ (∀ (h : List Position) (p : Position), h.length = POSITION_HISTORY →
        pushHist h p = h.tail ++ [p]) := by
  constructor
  · intro stream ids out hout obj hobj
    exact positions_length_runCycles stream 0 [] (by simp) out hout obj hobj
  · intro h p hlen
    simp only [pushHist]
    rw [if_pos]
    · cases h with
      | nil => simp [POSITION_HISTORY] at hlen
      | cons a t => simp
    · simp only [List.length_append, List.length_singleton]
      omega

/-- A full 15-sample history. -/
def fullHist : List Position := List.replicate 15 ⟨some 7, some 7, 0⟩

/-- Witness for C4: pushing onto the concrete full history drops exactly
its oldest sample and appends the new one at the end. -/
theorem history_bounded_and_fifo_witness :
    fullHist.length = POSITION_HISTORY
    ∧ pushHist fullHist ⟨some 8, some 8, 1000⟩ = fullHist.tail ++ [⟨some 8, some 8, 1000⟩] :=
  ⟨by simp [fullHist, POSITION_HISTORY],
    history_bounded_and_fifo.2 fullHist ⟨some 8, some 8, 1000⟩
      (by simp [fullHist, POSITION_HISTORY])⟩

lemma id_of_mem_processList {prev : List TrackedObject} {now : ℚ} {ids : ℕ → String} :
    ∀ (dets : List Detection) (i : ℕ) (obj : TrackedObject),
      obj ∈ processList prev now ids i dets →
        (∃ d ∈ dets, ∃ o, findExisting prev d = some o ∧ o.id ≠ "" ∧ obj.id = o.id)
        ∨ (∃ j, obj.id = ids j) := by
  intro dets
  induction dets with
  | nil => intro i obj h; simp [processList] at h
  | cons d rest ih =>
    intro i obj h
    rw [processList, List.mem_cons] at h
    rcases h with h | h
    · subst h
      rcases hf : findExisting prev d with _ | o
      · right
        exact ⟨i, by simp [processDet, hf]⟩
      · by_cases hid : o.id = ""
        · right
          exact ⟨i, by simp [processDet, hf, hid]⟩
        · left
          exact ⟨d, by simp, o, hf, hid, by simp [processDet, hf, hid]⟩
    · rcases ih (i + 1) obj h with ⟨d, hd, o, hf, hne, hoid⟩ | hr
      · exact Or.inl ⟨d, List.mem_cons_of_mem _ hd, o, hf, hne, hoid⟩
      · exact Or.inr hr

lemma id_not_in_runCycle {st : List TrackedObject} {dets : List Detection} {now : ℚ}
    {idsf : ℕ → String} {x : String} (hst : x ∉ st.map (fun o => o.id))
    (hids : ∀ i, idsf i ≠ x) :
    x ∉ (runCycle st dets now idsf).map (fun o => o.id) := by
  intro hmem
  rw [runCycle_eq_processList] at hmem
  obtain ⟨obj, hobj, hid⟩ := List.mem_map.1 hmem
  rcases id_of_mem_processList dets 0 obj hobj with ⟨d, hd, o, hf, hne, hoid⟩ | ⟨j, hj⟩
  · refine hst (List.mem_map.2 ⟨o, List.mem_of_find?_eq_some hf, ?_⟩)
    rw [← hoid, hid]
  · exact hids j (by rw [← hj, hid])

/-- C5: a previous track matched by no detection this cycle (and whose id is
unique among previous tracks and never produced by the fresh-id oracle) is
absent from the cycle output; once an id is absent from the live set and the
oracle never produces it, it is absent from every later cycle's output; with
zero detections the output set is empty. -/
theorem unmatched_tracks_dropped :
    (∀ (prev : List TrackedObject) (now : ℚ) (ids : ℕ → String),
        runCycle prev [] now ids = [])
    ∧ (∀ (prev : List TrackedObject) (dets : List Detection) (now : ℚ)
        (ids : ℕ → String) (T : TrackedObject),
        T ∈ prev →
        (∀ d ∈ dets, findExisting prev d ≠ some T) →
        (∀ o ∈ prev, o.id = T.id → o = T) →
        (∀ i, ids i ≠ T.id) →
        T.id ∉ (runCycle prev dets now ids).map (fun o => o.id))
    ∧ (∀ (stream : List (List Detection × ℚ)) (ids : ℕ → ℕ → String) (k : ℕ)
        (st : List TrackedObject) (x : String),
        x ∉ st.map (fun o => o.id) →
        (∀ kk i, ids kk i ≠ x) →
        ∀ out ∈ runCycles ids k st stream, x ∉ out.map (fun o => o.id)) := by
  refine ⟨?_, ?_, ?_⟩
  · intro prev now ids
    rw [runCycle_eq_processList]
    rfl
  · intro prev dets now ids T hT hnomatch huniq hfresh hmem
    rw [runCycle_eq_processList] at hmem
    obtain ⟨obj, hobj, hid⟩ := List.mem_map.1 hmem
    rcases id_of_mem_processList dets 0 obj hobj with ⟨d, hd, o, hf, hne, hoid⟩ | ⟨j, hj⟩
    · have hoT : o = T := by
        refine huniq o (List.mem_of_find?_eq_some hf) ?_
        rw [← hoid, hid]
      rw [hoT] at hf
      exact hnomatch d hd hf
    · exact hfresh j (by rw [← hj, hid])
  · intro stream
    induction stream with
    | nil => intro ids k st x _ _ out h; simp [runCycles] at h
    | cons c rest ih =>
      intro ids k st x hst hids out hout
      obtain ⟨dets, now⟩ := c
      rw [runCycles, List.mem_cons] at hout
      have hhead : x ∉ (runCycle st dets now (ids k)).map (fun o => o.id) :=
        id_not_in_runCycle hst (fun i => hids k i)
      rcases hout with hout | hout
      · subst hout; exact hhead
      · exact ih ids (k + 1) (runCycle st dets now (ids k)) x hhead hids out hout

/-- A concrete previous track: "person" centred at (100, 100). -/
def trackT : TrackedObject :=
  ⟨"t1", "person", [⟨some 100, some 100, 0⟩], 0,
    [some 90, some 90, some 20, some 20], 9/10, "stationary", 0⟩

/-- A "person" detection centred at (510, 100): far outside the gate of
`trackT`. -/
def detFar : Detection := ⟨[some 500, some 90, some 20, some 20], "person", 9/10⟩

lemma findExisting_trackT_detFar : findExisting [trackT] detFar = none := by
  norm_num [findExisting, List.find?, gateMatch, trackT, detFar, bbCenterX,
    bbCenterY, jget, jadd, jhalf, jsub, jabs, jltB]

/-- Witness for C5: the concrete track `trackT` is matched by no detection
of the cycle `[detFar]`, its id is unique and never freshly generated, and
its id is indeed absent from the cycle output; an id foreign to the state
never appears in any later output. -/
theorem unmatched_tracks_dropped_witness :
    trackT ∈ [trackT]
    ∧ (∀ d ∈ [detFar], findExisting [trackT] d ≠ some trackT)
    ∧ "t1" ∉ (runCycle [trackT] [detFar] 1000 (fun _ => "fresh")).map (fun o => o.id)
    ∧ (∀ out ∈ runCycles (fun _ _ => "fresh") 0 [trackT] [([detFar], 1000)],
        "ghost" ∉ out.map (fun o => o.id)) := by
  have hnm : ∀ d ∈ [detFar], findExisting [trackT] d ≠ some trackT := by
    intro d hd
    rw [List.mem_singleton] at hd
    subst hd
    rw [findExisting_trackT_detFar]
    simp
  refine ⟨by simp, hnm, ?_, ?_⟩
  · exact unmatched_tracks_dropped.2.1 [trackT] [detFar] 1000 (fun _ => "fresh") trackT
      (by simp) hnm
      (by intro o ho h; rwa [List.mem_singleton] at ho)
      (by intro i; simp [trackT])
  · exact unmatched_tracks_dropped.2.2 [([detFar], 1000)] (fun _ _ => "fresh") 0 [trackT]
      "ghost" (by simp [trackT]) (by intro kk i; simp)

lemma find?_eq_some_append {α : Type} (p : α → Bool) :
    ∀ (l : List α) (a : α),
      l.find? p = some a ↔
        (p a = true ∧ ∃ l1 l2, l = l1 ++ a :: l2 ∧ ∀ x ∈ l1, p x = false) := by
  intro l
  induction l with
  | nil =>
    intro a
    constructor
    · intro h; simp at h
    · rintro ⟨-, l1, l2, hdec, -⟩
      exact absurd hdec.symm (by simp)
  | cons b t ih =>
    intro a
    by_cases hb : p b
    · rw [List.find?_cons_of_pos _ hb]
      constructor
      · intro h
        have hba : b = a := by injection h
        subst hba
        exact ⟨hb, [], t, rfl, by simp⟩
      · rintro ⟨hpa, l1, l2, hdec, hall⟩
        cases l1 with
        | nil =>
          simp only [List.nil_append, List.cons.injEq] at hdec
          rw [hdec.1]
        | cons c l1t =>
          simp only [List.cons_append, List.cons.injEq] at hdec
          have : p b = false := by
            rw [hdec.1]
            exact hall c (by simp)
          rw [this] at hb
          exact absurd hb (by simp)
    · rw [List.find?_cons_of_neg _ hb, ih]
      constructor
      · rintro ⟨hpa, l1, l2, hdec, hall⟩
        refine ⟨hpa, b :: l1, l2, by rw [hdec]; rfl, ?_⟩
        intro x hx
        rcases List.mem_cons.1 hx with hx | hx
        · subst hx
          exact Bool.eq_false_iff.2 hb
        · exact hall x hx
      · rintro ⟨hpa, l1, l2, hdec, hall⟩
        cases l1 with
        | nil =>
          simp only [List.nil_append, List.cons.injEq] at hdec
          rw [hdec.1] at hb
          exact absurd hpa (by simpa using hb)
        | cons c l1t =>
          simp only [List.cons_append, List.cons.injEq] at hdec
          refine ⟨hpa, l1t, l2, hdec.2, ?_⟩
          intro x hx
          exact hall x (List.mem_cons_of_mem _ hx)

/-- A "person" detection centred at (100, 100). -/
def detPerson : Detection := ⟨[some 90, some 90, some 20, some 20], "person", 9/10⟩

/-- A "person" track whose last bounding-box centre is (130, 120):
both deltas to (100, 100) are below 50px. -/
def trackNear : TrackedObject :=
  ⟨"tn", "person", [⟨some 130, some 120, 0⟩], 0,
    [some 120, some 110, some 20, some 20], 9/10, "stationary", 0⟩

/-- A "person" track whose last bounding-box centre is (200, 100):
the x-delta to (100, 100) is 100 ≥ 50. -/
def trackFar : TrackedObject :=
  ⟨"tf", "person", [⟨some 200, some 100, 0⟩], 0,
    [some 190, some 90, some 20, some 20], 9/10, "stationary", 0⟩

/-- C6: the association used by the cycle picks exactly the first previous
track, in list order, with the identical class whose last bounding-box
centre differs from the detection's centre by less than 50px on each axis
independently (a rectangular gate, not Euclidean); a "person" detection at
(100, 100) passes the gate of a "person" track at (130, 120) but not of
one at (200, 100). -/
theorem association_rectangular_gate :
    (∀ (prev : List TrackedObject) (pred : Detection) (T : TrackedObject),
        findExisting prev pred = some T ↔
          (gateMatch T pred = true ∧ ∃ l1 l2, prev = l1 ++ T :: l2 ∧
            ∀ o ∈ l1, gateMatch o pred = false))
    ∧ (∀ (obj : TrackedObject) (pred : Detection) (ox oy dx dy : ℚ),
        bbCenterX obj.bbox = some ox → bbCenterY obj.bbox = some oy →
        bbCenterX pred.bbox = some dx → bbCenterY pred.bbox = some dy →
        (gateMatch obj pred = true ↔
          (obj.className = pred.className ∧ |ox - dx| < 50 ∧ |oy - dy| < 50)))
    ∧ gateMatch trackNear detPerson = true
    ∧ gateMatch trackFar detPerson = false := by
  refine ⟨?_, ?_, ?_, ?_⟩
  · intro prev pred T
    exact find?_eq_some_append (fun obj => gateMatch obj pred) prev T
  · intro obj pred ox oy dx dy hox hoy hdx hdy
    simp [gateMatch, hox, hoy, hdx, hdy, jsub, jabs, jltB, and_assoc]
  · norm_num [gateMatch, trackNear, detPerson, bbCenterX, bbCenterY, jget,
      jadd, jhalf, jsub, jabs, jltB]
  · norm_num [gateMatch, trackFar, detPerson, bbCenterX, bbCenterY, jget,
      jadd, jhalf, jsub, jabs, jltB]

/-- Witness for C6: the centre-value characterisation of the gate applied to
the concrete near track and person detection, with the centre equations
discharged by evaluation. -/
theorem association_rectangular_gate_witness :
    bbCenterX trackNear.bbox = some 130
    ∧ (gateMatch trackNear detPerson = true ↔
        (trackNear.className = detPerson.className
          ∧ |(130:ℚ) - 100| < 50 ∧ |(120:ℚ) - 100| < 50)) := by
  have h1 : bbCenterX trackNear.bbox = some 130 := by
    norm_num [bbCenterX, trackNear, jget, jadd, jhalf]
  have h2 : bbCenterY trackNear.bbox = some 120 := by
    norm_num [bbCenterY, trackNear, jget, jadd, jhalf]
  have h3 : bbCenterX detPerson.bbox = some 100 := by
    norm_num [bbCenterX, detPerson, jget, jadd, jhalf]
  have h4 : bbCenterY detPerson.bbox = some 100 := by
    norm_num [bbCenterY, detPerson, jget, jadd, jhalf]
  exact ⟨h1, association_rectangular_gate.2.1 trackNear detPerson 130 120 100 100
    h1 h2 h3 h4⟩

/-- A previous "person" track centred at (100, 100), id `"t7"`. -/
def track7 : TrackedObject :=
  ⟨"t7", "person", [⟨some 100, some 100, 0⟩], 0,
    [some 90, some 90, some 20, some 20], 9/10, "stationary", 0⟩

/-- A "person" detection centred at (105, 105): inside the gate of
`track7`. -/
def det71 : Detection := ⟨[some 95, some 95, some 20, some 20], "person", 9/10⟩

/-- A "person" detection centred at (120, 110): also inside the gate of
`track7`. -/
def det72 : Detection := ⟨[some 110, some 100, some 20, some 20], "person", 9/10⟩

/-- Counterexample to C7: with a single previous track and two detections
both inside its gate, the cycle's `find` is evaluated against the same
unchanged previous set for every detection, so BOTH records reuse the
previous track's id `"t7"` — the second detection does not become a new
track and the two emitted ids are not distinct. -/
theorem double_match_not_distinct_ids :
    (runCycle [track7] [det71, det72] 500 (fun _ => "f7")).map (fun o => o.id)
      = ["t7", "t7"] := by
  rw [runCycle_eq_processList]
  norm_num [processList, processDet, findExisting, List.find?, gateMatch, track7,
    det71, det72, bbCenterX, bbCenterY, jget, jadd, jhalf, jsub, jabs, jltB]
  decide

/-- C7 (amended): when two detections both fall within the gate of the same
single previous track, both are associated with it and both emitted records
reuse its id; no fresh id is assigned to either. -/
theorem double_match_reuses_same_id :
    ∀ (T : TrackedObject) (d1 d2 : Detection) (now : ℚ) (ids : ℕ → String),
      gateMatch T d1 = true → gateMatch T d2 = true → T.id ≠ "" →
      (runCycle [T] [d1, d2] now ids).map (fun o => o.id) = [T.id, T.id] := by
  intro T d1 d2 now ids h1 h2 hne
  rw [runCycle_eq_processList]
  have hf1 : findExisting [T] d1 = some T := by
    unfold findExisting
    exact List.find?_cons_of_pos _ h1
  have hf2 : findExisting [T] d2 = some T := by
    unfold findExisting
    exact List.find?_cons_of_pos _ h2
  simp [processList, processDet, hf1, hf2, hne]

/-- Witness for C7 (amended): the concrete crowded scene gives two records
both carrying id `"t7"`. -/
theorem double_match_reuses_same_id_witness :
    gateMatch track7 det71 = true ∧ gateMatch track7 det72 = true
    ∧ (runCycle [track7] [det71, det72] 500 (fun _ => "f7")).map (fun o => o.id)
        = [track7.id, track7.id] := by
  have h1 : gateMatch track7 det71 = true := by
    norm_num [gateMatch, track7, det71, bbCenterX, bbCenterY, jget, jadd, jhalf,
      jsub, jabs, jltB]
  have h2 : gateMatch track7 det72 = true := by
    norm_num [gateMatch, track7, det72, bbCenterX, bbCenterY, jget, jadd, jhalf,
      jsub, jabs, jltB]
  exact ⟨h1, h2, double_match_reuses_same_id track7 det71 det72 500 (fun _ => "f7")
    h1 h2 (by decide)⟩

/-! ### Malformed detections (C8) and determinism (C9) -/

/-- The id-erased signature of an emitted record: everything except the
(randomly generated) `id` field. -/
def sig (o : TrackedObject) : String × List Position × ℤ × List OQ × ℚ × String × ℚ :=
  (o.className, o.positions, o.speed, o.bbox, o.score, o.action, o.lastUpdate)

lemma sig_processDet_id_indep (prev : List TrackedObject) (now : ℚ) (d : Detection)
    (f : String) : sig (processDet prev now d f) = sig (processDet prev now d "") :=
  rfl

lemma map_sig_processList {prev : List TrackedObject} {now : ℚ} {ids : ℕ → String} :
    ∀ (dets : List Detection) (i : ℕ),
      (processList prev now ids i dets).map sig
        = dets.map (fun d => sig (processDet prev now d "")) := by
  intro dets
  induction dets with
  | nil => intro i; rfl
  | cons d rest ih =>
    intro i
    rw [processList, List.map_cons, List.map_cons, sig_processDet_id_indep, ih]

/-- A malformed detection: its bounding-box array is empty, so all four
destructured fields are `undefined` and the derived centre is `NaN`. -/
def mDet : Detection := ⟨[], "person", 9/10⟩

/-- Counterexample to C8: the cycle maps EVERY detection to an output
record, so the malformed detection `mDet` is not skipped — a cycle
consisting only of it produces one record, not zero. -/
theorem malformed_detection_not_skipped :
    (runCycle [] [mDet] 0 (fun _ => "m0")).length = 1 := by
  rw [runCycle_eq_processList]
  rfl

/-- C8 (amended): a malformed detection does not crash the cycle and leaves
every other detection's record (id aside) exactly as it would have been
anyway, but it is not skipped: wherever it sits in the detection list it
contributes exactly one record of its own; concretely, the empty-bbox
detection's record never matches any track and carries speed 0 and action
`stationary`. -/
theorem malformed_detection_emits_record :
    (∀ (prev : List TrackedObject) (l1 l2 : List Detection) (m : Detection)
        (now : ℚ) (ids : ℕ → String),
        (runCycle prev (l1 ++ m :: l2) now ids).map sig
          = (runCycle prev l1 now ids).map sig
            ++ sig (processDet prev now m "") :: (runCycle prev l2 now ids).map sig)
    ∧ (runCycle [] [mDet] 0 (fun _ => "m0")).map (fun o => (o.speed, o.action))
        = [(0, "stationary")] := by
  constructor
  · intro prev l1 l2 m now ids
    rw [runCycle_eq_processList, runCycle_eq_processList, runCycle_eq_processList]
    rw [map_sig_processList, map_sig_processList, map_sig_processList]
    simp
  · rw [runCycle_eq_processList]
    norm_num [processList, processDet, findExisting, List.find?, pushHist,
      POSITION_HISTORY, calculateSpeed, determineAction, mDet]

lemma gateMatch_sig_congr {o1 o2 : TrackedObject} (h : sig o1 = sig o2)
    (d : Detection) : gateMatch o1 d = gateMatch o2 d := by
  simp only [sig, Prod.mk.injEq] at h
  obtain ⟨hc, -, -, hb, -⟩ := h
  simp [gateMatch, hc, hb]

lemma positions_sig_congr {o1 o2 : TrackedObject} (h : sig o1 = sig o2) :
    o1.positions = o2.positions := by
  simp only [sig, Prod.mk.injEq] at h
  exact h.2.1

lemma findExisting_sig_congr :
    ∀ (p1 p2 : List TrackedObject), p1.map sig = p2.map sig →
      ∀ d, (findExisting p1 d).map sig = (findExisting p2 d).map sig := by
  intro p1
  induction p1 with
  | nil =>
    intro p2 h d
    cases p2 with
    | nil => rfl
    | cons b t2 => simp at h
  | cons a t ih =>
    intro p2 h d
    cases p2 with
    | nil => simp at h
    | cons b t2 =>
      simp only [List.map_cons, List.cons.injEq] at h
      obtain ⟨hab, ht⟩ := h
      have hg : gateMatch a d = gateMatch b d := gateMatch_sig_congr hab d
      by_cases hga : gateMatch a d = true
      · have hgb : gateMatch b d = true := by rw [← hg]; exact hga
        simp [findExisting, List.find?_cons, hga, hgb, hab]
      · have hga2 : gateMatch a d = false := Bool.eq_false_iff.2 hga
        have hgb2 : gateMatch b d = false := by rw [← hg]; exact hga2
        simp only [findExisting, List.find?_cons, hga2, hgb2]
        exact ih t2 ht d

lemma sig_processDet_congr {p1 p2 : List TrackedObject} {now : ℚ} {d : Detection}
    {f1 f2 : String} (h : p1.map sig = p2.map sig) :
    sig (processDet p1 now d f1) = sig (processDet p2 now d f2) := by
  have hf := findExisting_sig_congr p1 p2 h d
  rcases h1 : findExisting p1 d with _ | o1 <;>
    rcases h2 : findExisting p2 d with _ | o2 <;> rw [h1, h2] at hf
  · simp [processDet, sig, h1, h2]
  · simp only [Option.map_none', Option.map_some'] at hf
    exact Option.noConfusion hf
  · simp only [Option.map_none', Option.map_some'] at hf
    exact Option.noConfusion hf
  · simp only [Option.map_some', Option.some.injEq] at hf
    have hpos : o1.positions = o2.positions := positions_sig_congr hf
    simp [processDet, sig, h1, h2, hpos]

lemma map_sig_runCycle_congr {p1 p2 : List TrackedObject} {dets : List Detection}
    {now : ℚ} {ids1 ids2 : ℕ → String} (h : p1.map sig = p2.map sig) :
    (runCycle p1 dets now ids1).map sig = (runCycle p2 dets now ids2).map sig := by
  rw [runCycle_eq_processList, runCycle_eq_processList,
    map_sig_processList, map_sig_processList]
  refine List.map_congr_left ?_
  intro d _
  exact sig_processDet_congr h

lemma runCycles_sig_congr :
    ∀ (stream : List (List Detection × ℚ)) (k1 k2 : ℕ)
      (st1 st2 : List TrackedObject) (ids1 ids2 : ℕ → ℕ → String),
      st1.map sig = st2.map sig →
      (runCycles ids1 k1 st1 stream).map (fun out => out.map sig)
        = (runCycles ids2 k2 st2 stream).map (fun out => out.map sig) := by
  intro stream
  induction stream with
  | nil => intro k1 k2 st1 st2 ids1 ids2 _; rfl
  | cons c rest ih =>
    intro k1 k2 st1 st2 ids1 ids2 h
    obtain ⟨dets, now⟩ := c
    rw [runCycles, runCycles, List.map_cons, List.map_cons]
    have hhead : (runCycle st1 dets now (ids1 k1)).map sig
        = (runCycle st2 dets now (ids2 k2)).map sig := map_sig_runCycle_congr h
    rw [hhead]
    rw [ih (k1 + 1) (k2 + 1) _ _ ids1 ids2 hhead]

/-- The speed/action projection of the id-erased signature. -/
def sigSpeedAction (s : String × List Position × ℤ × List OQ × ℚ × String × ℚ) :
    ℤ × String :=
  (s.2.2.1, s.2.2.2.2.2.1)

lemma map_speedAction_of_map_sig {out1 out2 : List TrackedObject}
    (h : out1.map sig = out2.map sig) :
    out1.map (fun o => (o.speed, o.action)) = out2.map (fun o => (o.speed, o.action)) := by
  have h2 := congrArg (List.map sigSpeedAction) h
  simpa [List.map_map, Function.comp, sig, sigSpeedAction] using h2

/-- C9: replaying the same timed detection stream from the fresh empty
engine, with two arbitrary fresh-id oracles standing for the two runs'
`Math.random()` draws, produces identical per-cycle sequences of speed and
action values. -/
theorem replay_deterministic_up_to_ids :
    ∀ (stream : List (List Detection × ℚ)) (ids1 ids2 : ℕ → ℕ → String),
      (runAll stream ids1).map (fun out => out.map (fun o => (o.speed, o.action)))
        = (runAll stream ids2).map (fun out => out.map (fun o => (o.speed, o.action))) := by
  intro stream ids1 ids2
  have h := runCycles_sig_congr stream 0 0 [] [] ids1 ids2 rfl
  unfold runAll
  revert h
  generalize runCycles ids1 0 [] stream = L1
  generalize runCycles ids2 0 [] stream = L2
  intro h
  induction L1 generalizing L2 with
  | nil =>
    cases L2 with
    | nil => rfl
    | cons o t => simp at h
  | cons o1 t1 ih =>
    cases L2 with
    | nil => simp at h
    | cons o2 t2 =>
      simp only [List.map_cons, List.cons.injEq] at h ⊢
      exact ⟨map_speedAction_of_map_sig h.1, ih t2 h.2⟩

end MCA
